import Mathlib

/-!
Shallow embedding of the mmse-go save-file codec (package `mmse` and the
`pack`/`unpack` command) for verification of its specification.

Bytes are modelled as `Nat` values below 256, byte streams as `List Nat`.
Go `int32` values are modelled as `Int` with explicit two's-complement
wrapping where the source casts (`toInt32`).  The external lz4 block codec
(`lz4.CompressBlock` / `lz4.UncompressBlock`) is an abstract parameter:
a function from the source bytes and the destination-buffer length to
either an error or the list of bytes it produced; `CompressBlock`
returning `ok []` models its documented "0 bytes produced: data is not
compressible" signal.
-/

deriving instance DecidableEq for Except

namespace Mmse

/-- The `Magic` constant from the source: `0x73326d6d`. -/
def Magic : Int := 0x73326d6d

/-- The `Ver` constant from the source: `0x00000004`. -/
def Ver : Int := 4

/-- Go `int32(n)` cast of a nonnegative count: wrap modulo 2^32 into
[-2^31, 2^31). -/
def toInt32 (n : Nat) : Int :=
  let m := n % 4294967296
  if m < 2147483648 then (m : Int) else (m : Int) - 4294967296

/-- Little-endian 4-byte encoding of an `int32`, as written by
`binary.Write(w, binary.LittleEndian, v)`. -/
def le32 (v : Int) : List Nat :=
  let n := (v % 4294967296).toNat
  [n % 256, n / 256 % 256, n / 65536 % 256, n / 16777216 % 256]

/-- Little-endian 4-byte decoding into an `int32`, as read by
`binary.Read(r, binary.LittleEndian, &v)`. -/
def decodeInt32 (bs : List Nat) : Int :=
  match bs with
  | [b0, b1, b2, b3] => toInt32 (b0 % 256 + 256 * (b1 % 256) + 65536 * (b2 % 256)
      + 16777216 * (b3 % 256))
  | _ => 0

/-- Errors surfaced by the modelled operations.  Each constructor mirrors
one distinct error return or panic branch of the source. -/
inductive MErr where
  /-- From `binary.Read` with an empty reader: `io.EOF`. -/
  | ioEOF : MErr
  /-- From `binary.Read` with 1–3 bytes left: `io.ErrUnexpectedEOF`. -/
  | ioUnexpectedEOF : MErr
  /-- From `CheckHeader`: "Incorrect magic number: %d". -/
  | badMagic : Int → MErr
  /-- From `CheckHeader`: "Incorrect version number: %x". -/
  | badVersion : Int → MErr
  /-- From `Frame.Decode`: "Frame is not encoded". -/
  | notEncoded : MErr
  /-- From `Frame.Encode`: "Frame is already encoded". -/
  | alreadyEncoded : MErr
  /-- An error returned by `lz4.CompressBlock` / `lz4.UncompressBlock`. -/
  | lz4 : String → MErr
  /-- From `Frame.Decode`: "expecting %d bytes, read %d". -/
  | lengthMismatch : Int → Int → MErr
  /-- From `io.CopyN` stopping short of the requested count: `io.EOF`. -/
  | shortCopy : MErr
deriving DecidableEq, Repr

/-- Classification of error kinds: the underlying-I/O failures among
`MErr` (see §7 of the specification). -/
def MErr.isIOError : MErr → Bool
  | .ioEOF => true
  | .ioUnexpectedEOF => true
  | .shortCopy => true
  | _ => false

/-- An `Except.isOk` helper on the modelled results. -/
def isOk {ε α : Type} : Except ε α → Bool
  | .ok _ => true
  | .error _ => false

/-- The `Frame` struct of `pkg/mmse`: two `int32` sizes, the hidden
`isEncoded` flag, and the embedded `bytes.Buffer` content. -/
structure Frame where
  sizeRaw : Int
  sizeCom : Int
  isEncoded : Bool
  buf : List Nat
deriving DecidableEq, Repr

/-- The Go zero value `new(Frame)`. -/
def newFrame : Frame := { sizeRaw := 0, sizeCom := 0, isEncoded := false, buf := [] }

/-- Abstract model of one lz4 block-codec direction: given the source
bytes and the length of the destination buffer, return an error or the
bytes produced into the front of the destination.  For `CompressBlock`,
`ok []` is the documented "data is not compressible" signal (`n = 0`). -/
def Codec : Type := List Nat → Nat → Except String (List Nat)

/-- Model of `Frame.Encode` from `pkg/mmse/mmse.go`.  Returns the method's error
result together with the receiver's final state: the destination buffer
`b := make([]byte, f.SizeRaw)` starts zeroed, `CompressBlock` writes
`out` into its front, and on the `n == 0` (incompressible) path the code
sets `SizeCom = SizeRaw`, then `Reset`s the buffer, `Write`s all of `b`,
sets `isEncoded`, and `Truncate`s to `SizeCom`. -/
def Frame.encode (compress : Codec) (f : Frame) : Except MErr Unit × Frame :=
  if f.isEncoded then (.error .alreadyEncoded, f)
  else
    match compress f.buf f.sizeRaw.toNat with
    | .error e => (.error (.lz4 e), f)
    | .ok out =>
      let n := out.length
      let sizeCom : Int := if n = 0 then f.sizeRaw else toInt32 n
      let b := out ++ List.replicate (f.sizeRaw.toNat - n) 0
      (.ok (), { sizeRaw := f.sizeRaw, sizeCom := sizeCom, isEncoded := true,
                 buf := b.take sizeCom.toNat })

/-- Model of `Frame.Decode` from `pkg/mmse/mmse.go`.  Returns the method's error
result together with the receiver's final state; both error returns in
the source happen before any mutation of the receiver, so the frame
component is unchanged on those paths. -/
def Frame.decode (uncompress : Codec) (f : Frame) : Except MErr Unit × Frame :=
  if !f.isEncoded then (.error .notEncoded, f)
  else
    match uncompress f.buf f.sizeRaw.toNat with
    | .error e => (.error (.lz4 e), f)
    | .ok out =>
      if toInt32 out.length ≠ f.sizeRaw then
        (.error (.lengthMismatch f.sizeRaw (toInt32 out.length)), f)
      else
        let b := out ++ List.replicate (f.sizeRaw.toNat - out.length) 0
        (.ok (), { sizeRaw := f.sizeRaw, sizeCom := f.sizeCom, isEncoded := false,
                   buf := b })

/-- Model of `ReadInt32` from `pkg/mmse/mmse.go`, on a byte-list reader: consumes
four bytes, or fails the way `binary.Read` does on a short reader. -/
def readInt32 (bs : List Nat) : Except MErr (Int × List Nat) :=
  if 4 ≤ bs.length then .ok (decodeInt32 (bs.take 4), bs.drop 4)
  else if bs.length = 0 then .error .ioEOF
  else .error .ioUnexpectedEOF

/-- Model of `CheckHeader` from `pkg/mmse/mmse.go`: read and check the magic
number, then read and check the version number; returns the rest of the
input on success.  Each `.error` mirrors one panic branch. -/
def checkHeader (bs : List Nat) : Except MErr (List Nat) :=
  match readInt32 bs with
  | .error e => .error e
  | .ok (m, bs1) =>
    if m ≠ Magic then .error (.badMagic m)
    else
      match readInt32 bs1 with
      | .error e => .error e
      | .ok (v, bs2) =>
        if v ≠ Ver then .error (.badVersion v) else .ok bs2

/-- Model of `WriteHeader` from `pkg/mmse/mmse.go`: the bytes it writes, magic
then version, each as little-endian `int32`. -/
def writeHeaderBytes : List Nat := le32 Magic ++ le32 Ver

/-- Model of `WriteSize` from `pkg/mmse/mmse.go`: the bytes it writes for a frame,
`SizeCom` then `SizeRaw`, each as little-endian `int32`. -/
def writeSizeBytes (f : Frame) : List Nat := le32 f.sizeCom ++ le32 f.sizeRaw

/-- Model of `WriteFrame` from `pkg/mmse/mmse.go`: `io.Copy(w, f)` drains the
frame's buffered content into the output. -/
def writeFrameBytes (f : Frame) : List Nat := f.buf

/-- The initial frame state inside `ReadJSONToFrame`, after `new(Frame)`,
`io.Copy(f, r)` of the file content and `f.SizeRaw = int32(n)`. -/
def initFrame (content : List Nat) : Frame :=
  { sizeRaw := toInt32 content.length, sizeCom := 0, isEncoded := false, buf := content }

/-- Model of `ReadJSONToFrame` from `pkg/mmse/mmse.go`, on the JSON file's bytes:
reads the content into a fresh frame, sets `SizeRaw`, calls `Encode`
(panicking on its error, modelled as `.error`), and then clears
`isEncoded` before returning the frame. -/
def readJSONToFrame (compress : Codec) (content : List Nat) : Except MErr Frame :=
  match Frame.encode compress (initFrame content) with
  | (.error e, _) => .error e
  | (.ok _, f1) => .ok { f1 with isEncoded := false }

/-- Model of `pack` from the command's `main.go`: create `<basename>.sav`, write
the header, read-and-encode the info JSON, write its sizes, read-and-
encode the data JSON, write its sizes, then write the two frames'
contents, in that order.  Returns the full byte content of the output
file. -/
def pack (compress : Codec) (infoContent dataContent : List Nat) :
    Except MErr (List Nat) := do
  let out0 := writeHeaderBytes
  let info ← readJSONToFrame compress infoContent
  let out1 := out0 ++ writeSizeBytes info
  let data ← readJSONToFrame compress dataContent
  let out2 := out1 ++ writeSizeBytes data
  let out3 := out2 ++ writeFrameBytes info
  return out3 ++ writeFrameBytes data

/-- Modelled from the spec: the container layout that §3 claims
(`[magic][version][infoSizeCompressed][infoSizeRaw][infoCompressedBytes]
[dataSizeCompressed][dataSizeRaw][dataCompressedBytes]`), built from the
same two frames `pack` would build, with each payload's compressed bytes
immediately following that payload's own size pair.  Kept for comparison
with `pack`. -/
def specPack (compress : Codec) (infoContent dataContent : List Nat) :
    Except MErr (List Nat) := do
  let info ← readJSONToFrame compress infoContent
  let data ← readJSONToFrame compress dataContent
  return writeHeaderBytes ++ writeSizeBytes info ++ writeFrameBytes info
    ++ writeSizeBytes data ++ writeFrameBytes data

/-- One `io.CopyN(dst, src, n)` over a chunked reader: each list element
is what one `Read` call of the underlying reader delivers; the limit
splits a chunk that would overshoot.  Returns the bytes copied, the
unconsumed remainder of the reader, and whether the full `n` bytes were
obtained (`io.CopyN` returns `io.EOF` when it stops short). -/
def copyN : List (List Nat) → Nat → List Nat × List (List Nat) × Bool
  | chunks, 0 => ([], chunks, true)
  | [], _ + 1 => ([], [], false)
  | c :: cs, n + 1 =>
    if c.length ≤ n + 1 then
      let r := copyN cs (n + 1 - c.length)
      (c ++ r.1, r.2.1, r.2.2)
    else
      (c.take (n + 1), c.drop (n + 1) :: cs, true)

/-- The `io.CopyN(f, r, int64(f.SizeCom))` step of `WriteJSON` (the
spec's `fillCompressed` operation): append exactly `SizeCom` bytes from
the reader to the frame's buffer, failing when the reader runs out
first.  The bytes copied before the failure stay in the buffer, but the
operation reports the error (`WriteJSON` then panics). -/
def fillCompressed (f : Frame) (chunks : List (List Nat)) :
    Except MErr Unit × Frame × List (List Nat) :=
  let r := copyN chunks f.sizeCom.toNat
  (if r.2.2 then .ok () else .error .shortCopy,
   { f with buf := f.buf ++ r.1 }, r.2.1)

/-- Loop helper of `split` from the command's `main.go`: scan from the end of the name
for the last dot; the helper carries the index `i + 1` of the loop
variable, mirroring `for i := len(fn) - 1; i >= 0; i--`. -/
def splitLoop (fn : List Char) : Nat → Option Nat
  | 0 => none
  | i + 1 => if fn[i]? = some '.' then some i else splitLoop fn i

/-- Model of `split` from the command's `main.go`: strip one trailing `.sav` or
`.json` when the name's final dot starts one of those suffixes,
otherwise return the name unchanged. -/
def split (fn : List Char) : List Char :=
  match splitLoop fn fn.length with
  | some i =>
    if fn.drop i = ['.', 's', 'a', 'v'] ∨ fn.drop i = ['.', 'j', 's', 'o', 'n'] then
      fn.take i
    else fn
  | none => fn

/-- Go's `path.Base`: drop trailing slashes, keep everything after the
last remaining slash; `"."` for the empty path, `"/"` when only slashes
remain. -/
def pathBase (p : List Char) : List Char :=
  if p = [] then ['.']
  else
    let q := (p.reverse.dropWhile (· = '/')).reverse
    let r := (q.reverse.takeWhile (· ≠ '/')).reverse
    if r = [] then ['/'] else r

/-- The info output name `fmt.Sprintf("%s_info.json", bn)` built by
`unpack`. -/
def unpackInfoName (fn : List Char) : List Char :=
  split (pathBase fn) ++ ['_', 'i', 'n', 'f', 'o', '.', 'j', 's', 'o', 'n']

/-- The data output name `fmt.Sprintf("%s_data.json", bn)` built by
`unpack`. -/
def unpackDataName (fn : List Char) : List Char :=
  split (pathBase fn) ++ ['_', 'd', 'a', 't', 'a', '.', 'j', 's', 'o', 'n']

/-- The output name `fmt.Sprintf("%s.sav", bn)` built by `pack`, where
`bn := split(path.Base(dn))` comes from the data file name `dn` (the
second command-line argument). -/
def packOutName (dn : List Char) : List Char :=
  split (pathBase dn) ++ ['.', 's', 'a', 'v']

/-- A codec instance modelling `lz4.CompressBlock` on input it cannot
compress: zero bytes produced (for sources shorter than the codec's
12-byte match threshold the real library returns 0 without touching the
destination buffer). -/
def neverCompress : Codec := fun _ _ => .ok []

/-- A codec instance that always reports one byte of output, `[7]`,
modelling a successful `lz4.CompressBlock` call with `n = 1`. -/
def oneByteCompress : Codec := fun _ _ => .ok [7]

/-! ### Helper lemmas -/

theorem toInt32_eq_of_lt {n : Nat} (h : n < 2147483648) : toInt32 n = (n : Int) := by
  unfold toInt32
  have hm : n % 4294967296 = n := Nat.mod_eq_of_lt (by omega)
  simp only [hm]
  rw [if_pos (by exact_mod_cast h)]

theorem readInt32_ok (bs : List Nat) (h : 4 ≤ bs.length) :
    readInt32 bs = .ok (decodeInt32 (bs.take 4), bs.drop 4) := by
  unfold readInt32
  rw [if_pos h]

theorem readInt32_short (bs : List Nat) (h : bs.length < 4) :
    readInt32 bs = .error .ioEOF ∨ readInt32 bs = .error .ioUnexpectedEOF := by
  unfold readInt32
  rw [if_neg (by omega)]
  by_cases h0 : bs.length = 0
  · left; rw [if_pos h0]
  · right; rw [if_neg h0]

/-! ### Claim theorems -/

/-- C2: On a raw buffer the block compressor reports as not compressible
(zero bytes produced), `Encode` does set `sizeCompressed = sizeRaw`, but
the frame's buffered content afterwards is NOT the original raw bytes:
for the one-byte raw buffer `[0x41]` the buffer ends up holding the
zero-filled destination buffer `[0x00]`.  This evaluates the code at the
claim's failing input. -/
theorem encode_incompressible_zeroes_buffer :
    Frame.encode neverCompress { sizeRaw := 1, sizeCom := 0, isEncoded := false, buf := [65] }
      = (.ok (), { sizeRaw := 1, sizeCom := 1, isEncoded := true, buf := [0] }) ∧
    ((Frame.encode neverCompress
      { sizeRaw := 1, sizeCom := 0, isEncoded := false, buf := [65] }).2.buf == [65]) = false := by
  decide

/-- C3: The encode/decode round trip cannot reproduce every byte
sequence: when the compressor signals "not compressible", `Encode` maps
the two distinct raw buffers `[0x41]` and `[0x00]` (both of `sizeRaw` 1)
to the same encoded frame, so no decoder can recover both originals;
the round trip fails for `B = [0x41]`. -/
theorem encode_collapses_distinct_raw_buffers :
    (Frame.encode neverCompress { sizeRaw := 1, sizeCom := 0, isEncoded := false, buf := [65] }).2
      = (Frame.encode neverCompress { sizeRaw := 1, sizeCom := 0, isEncoded := false, buf := [0] }).2 ∧
    (([65] : List Nat) == [0]) = false := by
  decide

/-- C10: `Decode` is atomic on failure: whenever it returns an error
(state-protocol error, decompressor error, or length mismatch), the
frame is left exactly as it was, since both error returns in the source
happen before any mutation of the receiver. -/
theorem decode_error_leaves_frame_unchanged :
    ∀ (f : Frame) (u : Codec) (e : MErr),
      (f.decode u).1 = .error e → (f.decode u).2 = f := by
  intro f u e h
  by_cases hf : f.isEncoded
  · simp only [Frame.decode, hf, Bool.not_true, Bool.false_eq_true, if_false] at h ⊢
    cases hu : u f.buf f.sizeRaw.toNat with
    | error e' => simp [hu]
    | ok out =>
      simp only [hu] at h ⊢
      by_cases hl : toInt32 out.length ≠ f.sizeRaw
      · rw [if_pos hl]
      · rw [if_neg hl] at h
        simp at h
  · simp [Frame.decode, hf]

/-- C10 witness: on the zero-value frame, `Decode` fails (not encoded)
and the frame is returned unchanged. -/
theorem decode_error_leaves_frame_unchanged_witness :
    (Frame.decode neverCompress newFrame).2 = newFrame :=
  decode_error_leaves_frame_unchanged newFrame neverCompress .notEncoded rfl

/-- C5: `Decode` on a frame that is not encoded fails with the
"Frame is not encoded" protocol error and `Encode` on an encoded frame
fails with "Frame is already encoded"; a second `Decode` in a row never
succeeds, a second `Encode` in a row never succeeds, and `Decode` on a
freshly created (zero-value) frame fails with "Frame is not encoded". -/
theorem frame_state_protocol_errors :
    ∀ (f : Frame) (u c : Codec),
      (f.isEncoded = false → (f.decode u).1 = .error .notEncoded) ∧
      (f.isEncoded = true → (f.encode c).1 = .error .alreadyEncoded) ∧
      isOk (((f.decode u).2).decode u).1 = false ∧
      isOk (((f.encode c).2).encode c).1 = false ∧
      (Frame.decode u newFrame).1 = .error .notEncoded := by
  intro f u c
  refine ⟨fun h => by simp [Frame.decode, h], fun h => by simp [Frame.encode, h], ?_, ?_, rfl⟩
  · by_cases hf : f.isEncoded
    · simp only [Frame.decode, hf, Bool.not_true, Bool.false_eq_true, if_false]
      cases hu : u f.buf f.sizeRaw.toNat with
      | error e => simp [Frame.decode, hf, hu, isOk]
      | ok out =>
        by_cases hl : toInt32 out.length ≠ f.sizeRaw
        · simp [Frame.decode, hf, hu, if_pos hl, isOk]
        · simp only [if_neg hl]
          simp [Frame.decode, isOk]
    · simp [Frame.decode, hf, isOk]
  · by_cases hf : f.isEncoded
    · simp [Frame.encode, hf, isOk]
    · simp only [Frame.encode, hf, Bool.false_eq_true, if_false]
      cases hc : c f.buf f.sizeRaw.toNat with
      | error e => simp [Frame.encode, hf, hc, isOk]
      | ok out => simp [Frame.encode, isOk]

/-- C5 witness: the protocol errors at concrete frames — `Decode` on the
zero-value frame and `Encode` on an already-encoded frame. -/
theorem frame_state_protocol_errors_witness :
    (Frame.decode neverCompress newFrame).1 = .error .notEncoded ∧
    (Frame.encode neverCompress
      { sizeRaw := 0, sizeCom := 0, isEncoded := true, buf := [] }).1 = .error .alreadyEncoded :=
  ⟨(frame_state_protocol_errors newFrame neverCompress neverCompress).1 rfl,
   (frame_state_protocol_errors
      { sizeRaw := 0, sizeCom := 0, isEncoded := true, buf := [] }
      neverCompress neverCompress).2.1 rfl⟩

/-- C4: On an encoded (compressed-pending) frame, `Decode` returns an
error whenever the decompressor reports an error, or whenever the
`int32`-cast count of bytes produced differs from the declared
`sizeRaw`; and under the block codec's contract that it never produces
more than the destination buffer's `sizeRaw` bytes (with `sizeRaw` in
`int32` range), `Decode` succeeds exactly when the byte count produced
equals `sizeRaw`. -/
theorem decode_strict_length_check :
    ∀ (f : Frame) (u : Codec), f.isEncoded = true →
      (∀ e, u f.buf f.sizeRaw.toNat = .error e → (f.decode u).1 = .error (.lz4 e)) ∧
      (∀ out, u f.buf f.sizeRaw.toNat = .ok out → toInt32 out.length ≠ f.sizeRaw →
        (f.decode u).1 = .error (.lengthMismatch f.sizeRaw (toInt32 out.length))) ∧
      (∀ out, u f.buf f.sizeRaw.toNat = .ok out → out.length ≤ f.sizeRaw.toNat →
        f.sizeRaw < 2147483648 →
        ((f.decode u).1 = .ok () ↔ (out.length : Int) = f.sizeRaw)) := by
  intro f u henc
  refine ⟨?_, ?_, ?_⟩
  · intro e he
    simp [Frame.decode, henc, he]
  · intro out hout hne
    simp only [Frame.decode, henc, Bool.not_true, Bool.false_eq_true, if_false, hout]
    rw [if_pos hne]
  · intro out hout hle hlt
    have h32 : toInt32 out.length = (out.length : Int) := by
      apply toInt32_eq_of_lt
      omega
    simp only [Frame.decode, henc, Bool.not_true, Bool.false_eq_true, if_false, hout]
    by_cases h : (out.length : Int) = f.sizeRaw
    · rw [if_neg (by rw [h32]; exact not_not_intro h)]
      simp [h]
    · rw [if_pos (by rw [h32]; exact h)]
      simp [h]

/-- C4 witness: a concrete encoded frame with `sizeRaw = 2`; a
decompressor producing exactly two bytes makes `Decode` succeed, one
producing a single byte makes it fail with the length-mismatch error. -/
theorem decode_strict_length_check_witness :
    (Frame.decode (fun _ _ => .ok [5, 6])
      { sizeRaw := 2, sizeCom := 1, isEncoded := true, buf := [9] }).1 = .ok () ∧
    (Frame.decode (fun _ _ => .ok [5])
      { sizeRaw := 2, sizeCom := 1, isEncoded := true, buf := [9] }).1
      = .error (.lengthMismatch 2 (toInt32 1)) := by
  constructor
  · exact ((decode_strict_length_check
      { sizeRaw := 2, sizeCom := 1, isEncoded := true, buf := [9] }
      (fun _ _ => .ok [5, 6]) rfl).2.2 [5, 6] rfl (by decide) (by decide)).mpr (by decide)
  · exact (decode_strict_length_check
      { sizeRaw := 2, sizeCom := 1, isEncoded := true, buf := [9] }
      (fun _ _ => .ok [5]) rfl).2.1 [5] rfl (by decide)

/-- C9: the frame returned by `ReadJSONToFrame` holds the content the
`Encode` call produced (compressed buffer and `sizeCom` set), but its
`isEncoded` flag has been cleared; hence a second `Encode` succeeds
whenever the compressor returns a result, and `Decode` fails with the
"Frame is not encoded" protocol error. -/
theorem readJSONToFrame_clears_isEncoded :
    ∀ (compress : Codec) (content : List Nat) (f1 : Frame),
      readJSONToFrame compress content = .ok f1 →
      f1.isEncoded = false ∧
      f1 = { (Frame.encode compress (initFrame content)).2 with isEncoded := false } ∧
      (∀ out, compress f1.buf f1.sizeRaw.toNat = .ok out → (f1.encode compress).1 = .ok ()) ∧
      (∀ u : Codec, (f1.decode u).1 = .error .notEncoded) := by
  intro c content f1 h
  unfold readJSONToFrame at h
  rcases he : Frame.encode c (initFrame content) with ⟨r, fe⟩
  rw [he] at h
  cases r with
  | error e => simp at h
  | ok _ =>
    simp only [Except.ok.injEq] at h
    subst h
    refine ⟨rfl, by simp [he], ?_, ?_⟩
    · intro out hout
      simp [Frame.encode, hout]
    · intro u
      simp [Frame.decode]

/-- C9 witness: with a compressor that returns one byte, reading the
two-byte content `[65, 66]` produces the frame `⟨2, 1, false, [7]⟩`;
a second `Encode` on it succeeds and `Decode` on it fails with the
protocol error. -/
theorem readJSONToFrame_clears_isEncoded_witness :
    (Frame.encode oneByteCompress
      { sizeRaw := 2, sizeCom := 1, isEncoded := false, buf := [7] }).1 = .ok () ∧
    (Frame.decode oneByteCompress
      { sizeRaw := 2, sizeCom := 1, isEncoded := false, buf := [7] }).1
      = .error .notEncoded := by
  have h := readJSONToFrame_clears_isEncoded oneByteCompress [65, 66]
    { sizeRaw := 2, sizeCom := 1, isEncoded := false, buf := [7] } (by decide)
  exact ⟨h.2.2.1 [7] rfl, h.2.2.2 oneByteCompress⟩

/-- C1 counterexample: for the concrete payloads `[0x41]` and
`[0x42, 0x42]`, the file `pack` produces differs from the layout claimed
by the specification (each payload's compressed bytes immediately after
its own size pair, as built by `specPack` from the very same frames):
`pack` writes both size pairs before either payload's bytes, so the two
outputs differ from byte offset 16 on. -/
theorem pack_interleaved_layout_counterexample :
    pack neverCompress [65] [66, 66]
      = .ok [109, 109, 50, 115, 4, 0, 0, 0,
             1, 0, 0, 0, 1, 0, 0, 0, 2, 0, 0, 0, 2, 0, 0, 0, 0, 0, 0] ∧
    specPack neverCompress [65] [66, 66]
      = .ok [109, 109, 50, 115, 4, 0, 0, 0,
             1, 0, 0, 0, 1, 0, 0, 0, 0, 2, 0, 0, 0, 2, 0, 0, 0, 0, 0] ∧
    (([109, 109, 50, 115, 4, 0, 0, 0,
       1, 0, 0, 0, 1, 0, 0, 0, 2, 0, 0, 0, 2, 0, 0, 0, 0, 0, 0] : List Nat)
      == [109, 109, 50, 115, 4, 0, 0, 0,
          1, 0, 0, 0, 1, 0, 0, 0, 0, 2, 0, 0, 0, 2, 0, 0, 0, 0, 0]) = false := by
  decide

/-- C1 (amended): the container `pack` produces is
`[magic][version][infoSizeCompressed][infoSizeRaw][dataSizeCompressed]
[dataSizeRaw][infoCompressedBytes][dataCompressedBytes]`: both frames'
size pairs follow the header, and only then come the two compressed
payloads, info first. -/
theorem pack_layout_sizes_before_payloads :
    ∀ (compress : Codec) (i d : List Nat) (info data : Frame),
      readJSONToFrame compress i = .ok info →
      readJSONToFrame compress d = .ok data →
      pack compress i d = .ok (writeHeaderBytes ++ writeSizeBytes info
        ++ writeSizeBytes data ++ writeFrameBytes info ++ writeFrameBytes data) := by
  intro c i d info data hi hd
  simp [pack, hi, hd, List.append_assoc, Bind.bind, Except.bind, Pure.pure, Except.pure]

/-- C1 witness: the amended layout at the concrete payloads of the
counterexample. -/
theorem pack_layout_sizes_before_payloads_witness :
    pack neverCompress [65] [66, 66] = .ok (writeHeaderBytes
      ++ writeSizeBytes { sizeRaw := 1, sizeCom := 1, isEncoded := false, buf := [0] }
      ++ writeSizeBytes { sizeRaw := 2, sizeCom := 2, isEncoded := false, buf := [0, 0] }
      ++ writeFrameBytes { sizeRaw := 1, sizeCom := 1, isEncoded := false, buf := [0] }
      ++ writeFrameBytes { sizeRaw := 2, sizeCom := 2, isEncoded := false, buf := [0, 0] }) :=
  pack_layout_sizes_before_payloads neverCompress [65] [66, 66]
    { sizeRaw := 1, sizeCom := 1, isEncoded := false, buf := [0] }
    { sizeRaw := 2, sizeCom := 2, isEncoded := false, buf := [0, 0] }
    (by decide) (by decide)

/-- C6 counterexample: the input `[0, 0, 0, 0]` has fewer than 8 bytes
available, yet `CheckHeader` fails with the bad-magic format error
("Incorrect magic number: 0"), not with an I/O error: the complete
first int32 is checked before the second read can run short. -/
theorem checkHeader_short_input_format_error_counterexample :
    checkHeader [0, 0, 0, 0] = .error (.badMagic 0) ∧ (MErr.badMagic 0).isIOError = false := by
  decide

/-- C6 (amended): `WriteHeader` writes the magic then the version
constant, little-endian, 8 bytes total, and `CheckHeader` accepts
exactly those bytes; on any input of at least 8 bytes it succeeds iff
the first little-endian int32 equals the magic constant and the second
equals the version constant; every single-bit mutation of the 8 header
bytes makes it fail; and on fewer than 8 bytes it always fails — with
an I/O error when the reads run short before a complete int32 mismatch
is seen (fewer than 4 bytes, or a correct magic followed by a short
version read), and with the bad-magic format error when the complete
first int32 already differs. -/
theorem checkHeader_writeHeader_fidelity :
    writeHeaderBytes = [109, 109, 50, 115, 4, 0, 0, 0] ∧
    checkHeader writeHeaderBytes = .ok [] ∧
    (∀ bs : List Nat, 8 ≤ bs.length →
      (checkHeader bs = .ok (bs.drop 8) ↔
        decodeInt32 (bs.take 4) = Magic ∧ decodeInt32 ((bs.drop 4).take 4) = Ver)) ∧
    (∀ i, i < 64 → isOk (checkHeader (writeHeaderBytes.set (i / 8)
      ((writeHeaderBytes.getD (i / 8) 0) ^^^ (2 ^ (i % 8))))) = false) ∧
    (∀ bs : List Nat, bs.length < 8 → isOk (checkHeader bs) = false) ∧
    (∀ bs : List Nat, bs.length < 4 →
      (∃ e, checkHeader bs = .error e ∧ e.isIOError = true)) ∧
    (∀ bs : List Nat, 4 ≤ bs.length → bs.length < 8 → decodeInt32 (bs.take 4) = Magic →
      (∃ e, checkHeader bs = .error e ∧ e.isIOError = true)) ∧
    (∀ bs : List Nat, bs.length < 8 → decodeInt32 (bs.take 4) ≠ Magic → 4 ≤ bs.length →
      checkHeader bs = .error (.badMagic (decodeInt32 (bs.take 4)))) := by
  refine ⟨by decide, by decide, ?_, by decide, ?_, ?_, ?_, ?_⟩
  · intro bs h
    have h4 : 4 ≤ bs.length := by omega
    have h4' : 4 ≤ (bs.drop 4).length := by simp [List.length_drop]; omega
    simp only [checkHeader, readInt32_ok bs h4, readInt32_ok _ h4']
    by_cases hm : decodeInt32 (bs.take 4) = Magic
    · rw [if_neg (not_not_intro hm)]
      by_cases hv : decodeInt32 ((bs.drop 4).take 4) = Ver
      · rw [if_neg (not_not_intro hv)]
        simp [hm, hv, List.drop_drop]
      · rw [if_pos hv]
        simp [hm, hv]
    · rw [if_pos hm]
      simp [hm]
  · intro bs h
    rcases Nat.lt_or_ge bs.length 4 with h4 | h4
    · rcases readInt32_short bs h4 with he | he <;> simp [checkHeader, he, isOk]
    · have hlt : (bs.drop 4).length < 4 := by simp [List.length_drop]; omega
      simp only [checkHeader, readInt32_ok bs h4]
      by_cases hm : decodeInt32 (bs.take 4) = Magic
      · rw [if_neg (not_not_intro hm)]
        rcases readInt32_short _ hlt with he | he <;> simp [he, isOk]
      · rw [if_pos hm]
        simp [isOk]
  · intro bs h4
    rcases readInt32_short bs h4 with he | he
    · exact ⟨.ioEOF, by simp [checkHeader, he], rfl⟩
    · exact ⟨.ioUnexpectedEOF, by simp [checkHeader, he], rfl⟩
  · intro bs h4 h8 hm
    have hlt : (bs.drop 4).length < 4 := by simp [List.length_drop]; omega
    rcases readInt32_short _ hlt with he | he
    · refine ⟨.ioEOF, ?_, rfl⟩
      simp only [checkHeader, readInt32_ok bs h4]
      rw [if_neg (not_not_intro hm), he]
    · refine ⟨.ioUnexpectedEOF, ?_, rfl⟩
      simp only [checkHeader, readInt32_ok bs h4]
      rw [if_neg (not_not_intro hm), he]
  · intro bs _ hm h4
    simp only [checkHeader, readInt32_ok bs h4]
    rw [if_pos hm]

/-- C6 witness: the at-least-8-bytes characterization at a concrete
9-byte valid header plus trailing byte, and the always-fails conclusion
at a concrete 3-byte input. -/
theorem checkHeader_writeHeader_fidelity_witness :
    checkHeader [109, 109, 50, 115, 4, 0, 0, 0, 7] = .ok [7] ∧
    isOk (checkHeader [109, 109, 50]) = false := by
  constructor
  · exact (checkHeader_writeHeader_fidelity.2.2.1
      [109, 109, 50, 115, 4, 0, 0, 0, 7] (by decide)).mpr (by decide)
  · exact checkHeader_writeHeader_fidelity.2.2.2.2.1 [109, 109, 50] (by decide)

theorem copyN_spec :
    ∀ (chunks : List (List Nat)) (n : Nat),
      (copyN chunks n).1 = (chunks.flatten).take n ∧
      ((copyN chunks n).2.2 = true ↔ n ≤ (chunks.flatten).length) := by
  intro chunks
  induction chunks with
  | nil =>
    intro n
    cases n with
    | zero => simp [copyN]
    | succ n => simp [copyN]
  | cons c cs ih =>
    intro n
    cases n with
    | zero => simp [copyN]
    | succ n =>
      simp only [copyN]
      by_cases h : c.length ≤ n + 1
      · rw [if_pos h]
        obtain ⟨ih1, ih2⟩ := ih (n + 1 - c.length)
        constructor
        · simp only [ih1, List.flatten_cons, List.take_append_eq_append_take,
            List.take_of_length_le h]
        · simp only [ih2, List.flatten_cons, List.length_append]
          omega
      · rw [if_neg h]
        constructor
        · simp only [List.flatten_cons, List.take_append_eq_append_take]
          have : n + 1 - c.length = 0 := by omega
          simp [this]
        · simp only [List.flatten_cons, List.length_append]
          constructor
          · intro _
            omega
          · intro _
            trivial

/-- C7: the `io.CopyN` fill step of `WriteJSON` appends to the frame's
buffer exactly the first `sizeCompressed` bytes the reader delivers —
regardless of how the reader chops them into short reads — and it
succeeds exactly when the reader has at least `sizeCompressed` bytes;
on success the buffer has grown by exactly `sizeCompressed` bytes, so a
partial fill never passes as success. -/
theorem fillCompressed_exact_or_fail :
    ∀ (f : Frame) (chunks : List (List Nat)),
      (fillCompressed f chunks).2.1.buf
        = f.buf ++ (chunks.flatten).take f.sizeCom.toNat ∧
      ((fillCompressed f chunks).1 = .ok () ↔
        f.sizeCom.toNat ≤ (chunks.flatten).length) ∧
      ((fillCompressed f chunks).1 = .ok () →
        (fillCompressed f chunks).2.1.buf.length
          = f.buf.length + f.sizeCom.toNat) := by
  intro f chunks
  obtain ⟨h1, h2⟩ := copyN_spec chunks f.sizeCom.toNat
  have hbuf : (fillCompressed f chunks).2.1.buf
      = f.buf ++ (chunks.flatten).take f.sizeCom.toNat := by
    show f.buf ++ (copyN chunks f.sizeCom.toNat).1 = _
    rw [h1]
  have hfc : (fillCompressed f chunks).1
      = (if (copyN chunks f.sizeCom.toNat).2.2
          then (.ok () : Except MErr Unit) else .error .shortCopy) := rfl
  have hiff : (fillCompressed f chunks).1 = .ok () ↔
      f.sizeCom.toNat ≤ (chunks.flatten).length := by
    cases hb : (copyN chunks f.sizeCom.toNat).2.2 with
    | true =>
      rw [hfc, hb, if_pos rfl]
      exact iff_of_true rfl (h2.mp hb)
    | false =>
      rw [hfc, hb, if_neg (by simp)]
      refine iff_of_false (by simp) ?_
      intro hle
      rw [h2.mpr hle] at hb
      cases hb
  refine ⟨hbuf, hiff, ?_⟩
  intro hok
  have hle := hiff.mp hok
  rw [hbuf, List.length_append, List.length_take, Nat.min_eq_left hle]

/-- C7 witness: filling a frame with `sizeCompressed = 3` from a reader
that delivers `[1, 2]` then `[3, 4]` appends exactly `[1, 2, 3]` and
succeeds; the buffer ends 3 bytes longer. -/
theorem fillCompressed_exact_or_fail_witness :
    (fillCompressed { sizeRaw := 0, sizeCom := 3, isEncoded := true, buf := [9] }
      [[1, 2], [3, 4]]).2.1.buf = [9, 1, 2, 3] ∧
    (fillCompressed { sizeRaw := 0, sizeCom := 3, isEncoded := true, buf := [9] }
      [[1, 2], [3, 4]]).1 = .ok () ∧
    (fillCompressed { sizeRaw := 0, sizeCom := 3, isEncoded := true, buf := [9] }
      [[1, 2], [3, 4]]).2.1.buf.length = 4 := by
  have h := fillCompressed_exact_or_fail
    { sizeRaw := 0, sizeCom := 3, isEncoded := true, buf := [9] } [[1, 2], [3, 4]]
  have hok : (fillCompressed { sizeRaw := 0, sizeCom := 3, isEncoded := true, buf := [9] }
      [[1, 2], [3, 4]]).1 = .ok () := h.2.1.mpr (by decide)
  exact ⟨h.1.trans (by decide), hok, (h.2.2 hok).trans (by decide)⟩

theorem splitLoop_succ (fn : List Char) (i : Nat) :
    splitLoop fn (i + 1) = if fn[i]? = some '.' then some i else splitLoop fn i := rfl

theorem splitLoop_skip (fn : List Char) :
    ∀ (j i : Nat), i ≤ j → (∀ k, i ≤ k → k < j → fn[k]? ≠ some '.') →
      splitLoop fn j = splitLoop fn i := by
  intro j
  induction j with
  | zero =>
    intro i h _
    have h0 : i = 0 := Nat.le_zero.mp h
    rw [h0]
  | succ j ih =>
    intro i hle hnd
    by_cases hij : i = j + 1
    · rw [hij]
    · have hij' : i ≤ j := by omega
      rw [splitLoop_succ, if_neg (hnd j hij' (by omega))]
      exact ih i hij' (fun k hk1 hk2 => hnd k hk1 (by omega))

theorem getElem?_append_offset {α : Type} (l₁ l₂ : List α) (k : Nat) :
    (l₁ ++ l₂)[l₁.length + k]? = l₂[k]? := by
  rw [List.getElem?_append_right (by omega)]
  congr 1
  omega

theorem split_append_dotSuffix (pre suf : List Char) (h0 : suf[0]? = some '.')
    (h1 : 1 ≤ suf.length)
    (hnd : ∀ k, k < suf.length → 1 ≤ k → suf[k]? ≠ some '.')
    (hcond : suf = ['.', 's', 'a', 'v'] ∨ suf = ['.', 'j', 's', 'o', 'n']) :
    split (pre ++ suf) = pre := by
  have hnd' : ∀ k, pre.length + 1 ≤ k → k < pre.length + suf.length →
      (pre ++ suf)[k]? ≠ some '.' := by
    intro k hk1 hk2
    have hk : k = pre.length + (k - pre.length) := by omega
    rw [hk, getElem?_append_offset]
    exact hnd _ (by omega) (by omega)
  have hdot : (pre ++ suf)[pre.length]? = some '.' :=
    (getElem?_append_offset pre suf 0).trans h0
  have hloop : splitLoop (pre ++ suf) ((pre ++ suf).length) = some pre.length := by
    rw [List.length_append,
      splitLoop_skip (pre ++ suf) (pre.length + suf.length) (pre.length + 1)
        (by omega) hnd',
      splitLoop_succ, if_pos hdot]
  simp only [split, hloop]
  rw [List.drop_left, if_pos hcond]
  exact List.take_left pre suf

/-- C8: `split` strips exactly one trailing `.sav` or `.json` suffix,
and only when the name's final dot starts one of those two suffixes —
otherwise the name is returned unchanged; consequently unpacking
`save1.sav` writes `save1_info.json` and `save1_data.json`, and packing
with data file `foo_data.json` (the second argument) creates
`foo_data.sav`, derived from the data file's name. -/
theorem split_naming_rule :
    (∀ pre : List Char, split (pre ++ ['.', 's', 'a', 'v']) = pre) ∧
    (∀ pre : List Char, split (pre ++ ['.', 'j', 's', 'o', 'n']) = pre) ∧
    (∀ fn : List Char, ¬ ['.', 's', 'a', 'v'] <:+ fn →
      ¬ ['.', 'j', 's', 'o', 'n'] <:+ fn → split fn = fn) ∧
    unpackInfoName ['s', 'a', 'v', 'e', '1', '.', 's', 'a', 'v']
      = ['s', 'a', 'v', 'e', '1', '_', 'i', 'n', 'f', 'o', '.', 'j', 's', 'o', 'n'] ∧
    unpackDataName ['s', 'a', 'v', 'e', '1', '.', 's', 'a', 'v']
      = ['s', 'a', 'v', 'e', '1', '_', 'd', 'a', 't', 'a', '.', 'j', 's', 'o', 'n'] ∧
    packOutName ['f', 'o', 'o', '_', 'd', 'a', 't', 'a', '.', 'j', 's', 'o', 'n']
      = ['f', 'o', 'o', '_', 'd', 'a', 't', 'a', '.', 's', 'a', 'v'] := by
  refine ⟨?_, ?_, ?_, by decide, by decide, by decide⟩
  · intro pre
    exact split_append_dotSuffix pre _ rfl (by decide) (by decide) (Or.inl rfl)
  · intro pre
    exact split_append_dotSuffix pre _ rfl (by decide) (by decide) (Or.inr rfl)
  · intro fn hs hj
    unfold split
    cases hsl : splitLoop fn fn.length with
    | none => rfl
    | some i =>
      show (if List.drop i fn = ['.', 's', 'a', 'v'] ∨ List.drop i fn = ['.', 'j', 's', 'o', 'n']
        then List.take i fn else fn) = fn
      rw [if_neg ?_]
      rintro (h | h)
      · exact hs (h ▸ List.drop_suffix i fn)
      · exact hj (h ▸ List.drop_suffix i fn)

/-- C8 witness: `split` at the concrete names of the claim — it strips
the suffix of `save1.sav` and leaves a name whose final dot-suffix is
neither `.sav` nor `.json` unchanged. -/
theorem split_naming_rule_witness :
    split ['s', 'a', 'v', 'e', '1', '.', 's', 'a', 'v'] = ['s', 'a', 'v', 'e', '1'] ∧
    split ['a', '.', 't', 'x', 't'] = ['a', '.', 't', 'x', 't'] :=
  ⟨split_naming_rule.1 ['s', 'a', 'v', 'e', '1'],
   split_naming_rule.2.2.1 ['a', '.', 't', 'x', 't'] (by decide) (by decide)⟩

end Mmse
